import Mathlib

/-!
Shallow embedding of the WRITE_BACK_CTL / CM_SUICIDE core of
`src/tinySTM/src/stm.c` (the configuration the specification describes:
no INTERNAL_STATS, no IRREVOCABLE_ENABLED, no SUPPORTER_THREAD, NDEBUG
not defined).  Machine words are modelled as `Nat`; the bit-packed lock
word (owner pointer vs. version, plus the distinguished `LOCK_UNIT`
value) is modelled by the inductive `LockWord`, where an owner pointer
into a write-set array is abstracted as the pair (owning descriptor id,
entry index) — the pointer-range test `w_set.entries <= w < entries +
nb_entries` of the source becomes the test that the id is this
transaction's and the index is below `nb_entries`, which coincides with
the source's test because distinct descriptors' arrays never alias.
The execution model is single-threaded: atomic loads observe the current
lock table, and a CAS on an unowned word always succeeds, so the
lock-value-lock idiom always validates in one round.
-/

namespace TinySTM

/-- Machine word (`stm_word_t`), 64-bit target. -/
abbrev Word := Nat

/-- Pointer width in bits. -/
def WORD_BITS : Nat := 64

/-- `~(stm_word_t)0`: the all-ones word. -/
def wordAll : Word := 2 ^ WORD_BITS - 1

/-- Bitwise complement of a mask at word width (`~mask` in the source). -/
def wnot (m : Word) : Word := wordAll ^^^ (m &&& wordAll)

/-- `LOCK_ARRAY_LOG_SIZE` (default 20). -/
def LOCK_ARRAY_LOG_SIZE : Nat := 20

/-- `LOCK_SHIFT = (sizeof(stm_word_t)==4 ? 2 : 3) + LOCK_SHIFT_EXTRA` with
64-bit words and the default `LOCK_SHIFT_EXTRA = 2`. -/
def LOCK_SHIFT : Nat := 3 + 2

/-- `LOCK_MASK = LOCK_ARRAY_SIZE - 1`. -/
def LOCK_MASK : Nat := 2 ^ LOCK_ARRAY_LOG_SIZE - 1

/-- `LOCK_IDX(a) = ((stm_word_t)(a) >> LOCK_SHIFT) & LOCK_MASK`
(no `LOCK_IDX_SWAP`). -/
def LOCK_IDX (a : Word) : Nat := (a >>> LOCK_SHIFT) &&& LOCK_MASK

/-- `MAX_THREADS`. -/
def MAX_THREADS : Nat := 8192

/-- `VERSION_MAX = (~(stm_word_t)0 >> LOCK_BITS) - MAX_THREADS`, with
`LOCK_BITS = 1` outside the MODULAR contention manager. -/
def VERSION_MAX : Nat := (wordAll >>> 1) - MAX_THREADS

/-- A lock word: either unowned and carrying a version (`LOCK_GET_OWNED`
false, `LOCK_GET_TIMESTAMP` the version), or owned with the remaining
bits a pointer to a write-set entry (abstracted as descriptor id and
entry index), or the distinguished `LOCK_UNIT` all-ones value. -/
inductive LockWord where
  | free (version : Word)
  | owned (ownerTx : Nat) (ownerIdx : Nat)
  | unit
deriving DecidableEq

/-- Transaction status (the subset of the status enum the core reaches). -/
inductive TxStatus where
  | IDLE
  | ACTIVE
  | COMMITTED
  | ABORTED
deriving DecidableEq

/-- Abort reasons surfaced through `stm_rollback` (`STM_ABORT_*`).  The
source carries `STM_ABORT_EXPLICIT` as a bit or-ed onto the reason; here
an explicit user abort is the `EXPLICIT` constructor. -/
inductive AbortReason where
  | VAL_READ
  | VAL_WRITE
  | WW_CONFLICT
  | VALIDATE
  | RO_WRITE
  | EXPLICIT
deriving DecidableEq

/-- Read-set entry `r_entry_t`: version observed and the lock slot
(index into the lock array). -/
structure r_entry where
  version : Word
  lock : Nat
deriving DecidableEq

/-- Write-set entry `w_entry_t` (CTL fields): address, new value, write
mask, version overwritten, lock slot, and the `no_drop` flag. -/
structure w_entry where
  addr : Word
  value : Word
  mask : Word
  version : Word
  lock : Nat
  no_drop : Bool
deriving DecidableEq

/-- Transaction descriptor `stm_tx_t` (the fields the core configuration
uses).  `id` stands for the descriptor's identity (its address in the
source); `end_` is the `end` field. -/
structure stm_tx where
  id : Nat
  status : TxStatus
  start : Word
  end_ : Word
  r_set : List r_entry
  w_set : List w_entry
  nb_acquired : Nat
  ro : Bool
  can_extend : Bool
  attr_read_only : Bool
  attr_no_retry : Bool
  nesting : Nat
deriving DecidableEq

/-- The shared state: global clock, lock array and application memory. -/
structure GlobalState where
  clock : Word
  locks : Nat → LockWord
  mem : Word → Word

/-- `stm_has_read`: first read-set entry covering the given lock slot
(forward scan of the read set). -/
def stm_has_read (tx : stm_tx) (lock : Nat) : Option r_entry :=
  tx.r_set.find? (fun r => r.lock = lock)

/-- `stm_has_written`: first write-set entry for the given address
(forward scan; the Bloom filter of the source is only a negative oracle
and cannot change the result). -/
def stm_has_written (ws : List w_entry) (addr : Word) : Option w_entry :=
  ws.find? (fun w => w.addr = addr)

/-- Per-entry test of `stm_validate`: read the lock word; if owned,
check whether the owner pointer falls inside this transaction's write
set (owned by self) and then compare the owning entry's captured version
with the version read; if owned by another (including `LOCK_UNIT`),
fail; if unowned, compare the version fields. -/
def validateEntry (txid : Nat) (ws : List w_entry) (locks : Nat → LockWord)
    (r : r_entry) : Bool :=
  match locks r.lock with
  | LockWord.unit => false
  | LockWord.owned t i =>
    if t = txid then
      match ws[i]? with
      | some w => decide (w.version = r.version)
      | none => false
    else false
  | LockWord.free v => decide (v = r.version)

/-- `stm_validate`: all read-set entries pass `validateEntry`. -/
def stm_validate (tx : stm_tx) (locks : Nat → LockWord) : Bool :=
  tx.r_set.all (validateEntry tx.id tx.w_set locks)

/-- `stm_extend`: read the clock; fail on overflow; validate the read
set; on success advance `end` to the clock value read. -/
def stm_extend (tx : stm_tx) (g : GlobalState) : Option stm_tx :=
  let now := g.clock
  if now ≥ VERSION_MAX then none
  else if stm_validate tx g.locks then some { tx with end_ := now }
  else none

/-- `stm_prepare`: take the start snapshot from the clock, allow
extensions, and when the snapshot reaches `VERSION_MAX` run the
quiescence barrier's `rollover_clock` (clock and all lock versions to
zero) and retry; reset the read and write sets and become ACTIVE. -/
def stm_prepare (tx : stm_tx) (g : GlobalState) : stm_tx × GlobalState :=
  if g.clock ≥ VERSION_MAX then
    let g' : GlobalState := { g with clock := 0, locks := fun _ => LockWord.free 0 }
    ({ tx with start := 0, end_ := 0, can_extend := true, nb_acquired := 0,
               w_set := [], r_set := [], status := TxStatus.ACTIVE }, g')
  else
    ({ tx with start := g.clock, end_ := g.clock, can_extend := true,
               nb_acquired := 0, w_set := [], r_set := [],
               status := TxStatus.ACTIVE }, g)

/-- The lock-release loop of `stm_rollback`: walk the write set backwards
(this function receives the reversed list), and for each entry whose
`no_drop` flag is clear store back `LOCK_SET_TIMESTAMP(w->version)`,
decrementing the acquired counter until it reaches zero. -/
def dropLocks : List w_entry → Nat → (Nat → LockWord) → (Nat → LockWord)
  | _, 0, locks => locks
  | [], _ + 1, locks => locks
  | w :: rest, acq + 1, locks =>
    if w.no_drop then dropLocks rest (acq + 1) locks
    else dropLocks rest acq (Function.update locks w.lock (LockWord.free w.version))

/-- `stm_rollback`: release the acquired locks with their captured
versions, set status ABORTED and nesting 1; if `no_retry` or the abort
is explicit, return to the caller with nesting 0, otherwise re-prepare
the descriptor for the retry (the `siglongjmp` target). -/
def stm_rollback (tx : stm_tx) (g : GlobalState) (reason : AbortReason) :
    stm_tx × GlobalState :=
  let locks' := dropLocks tx.w_set.reverse tx.nb_acquired g.locks
  let g' : GlobalState := { g with locks := locks' }
  let tx' : stm_tx := { tx with status := TxStatus.ABORTED, nesting := 1,
                                nb_acquired := 0 }
  if tx'.attr_no_retry || reason = AbortReason.EXPLICIT then
    ({ tx' with nesting := 0 }, g')
  else
    stm_prepare tx' g'

/-- Result of `stm_read_invisible`.  `blocked` stands for the unbounded
spin on an owned lock word (lines 1264-1277): with the suicide
contention manager the thread cannot proceed while the word stays owned,
and in a single-threaded execution the word never changes. -/
inductive ReadRes where
  | ok (value : Word) (tx : stm_tx)
  | abort (reason : AbortReason) (tx : stm_tx)
  | blocked
deriving DecidableEq

/-- The read-set append at the end of `stm_read_invisible` (skipped for
read-only transactions). -/
def appendRead (tx : stm_tx) (lock : Nat) (version : Word) : stm_tx :=
  if tx.ro then tx
  else { tx with r_set := tx.r_set ++ [⟨version, lock⟩] }

/-- Tail of `stm_read_invisible` once a consistent unowned lock word has
been captured: overlay a partial-mask buffered write if one exists, then
append to the read set. -/
def finishRead (tx : stm_tx) (written : Option w_entry) (lock : Nat)
    (version value : Word) : ReadRes :=
  let v2 := match written with
    | some w => (value &&& wnot w.mask) ||| (w.value &&& w.mask)
    | none => value
  ReadRes.ok v2 (appendRead tx lock version)

/-- The lock-value-lock body of `stm_read_invisible`: in the
single-threaded model the two lock reads agree, so the loop is one
observation of the lock word followed by the timestamp check and the
extension attempt (after a successful extension the source re-reads the
lock once more; with a stable lock table that re-read always agrees). -/
def stm_read_mem (tx : stm_tx) (g : GlobalState) (addr : Word)
    (written : Option w_entry) : ReadRes :=
  let lock := LOCK_IDX addr
  match g.locks lock with
  | LockWord.unit => ReadRes.blocked
  | LockWord.owned _ _ => ReadRes.blocked
  | LockWord.free lv =>
    let value := g.mem addr
    if lv > tx.end_ then
      if tx.ro || !tx.can_extend then ReadRes.abort AbortReason.VAL_READ tx
      else
        match stm_extend tx g with
        | none => ReadRes.abort AbortReason.VAL_READ tx
        | some tx2 => finishRead tx2 written lock lv value
    else finishRead tx written lock lv value

/-- `stm_read_invisible`: write-set shortcut (a full-mask buffered write
is returned directly with no read-set append; a partial-mask one is
remembered for the overlay), then the lock-value-lock read. -/
def stm_read_invisible (tx : stm_tx) (g : GlobalState) (addr : Word) : ReadRes :=
  match stm_has_written tx.w_set addr with
  | some w =>
    if w.mask = wordAll then ReadRes.ok w.value tx
    else stm_read_mem tx g addr (some w)
  | none => stm_read_mem tx g addr none

/-- Result of `stm_write`. -/
inductive WriteRes where
  | ok (tx : stm_tx)
  | abort (reason : AbortReason) (tx : stm_tx)
  | blocked
deriving DecidableEq

/-- The merge branch of `stm_write`: if an entry for the address exists,
fold the new bytes into it (`value = (value & ~mask) | (new & mask)`,
`mask |= mask`) at the first matching entry; `none` when no entry
matches. -/
def mergeWrite : List w_entry → Word → Word → Word → Option (List w_entry)
  | [], _, _, _ => none
  | w :: rest, addr, value, mask =>
    if w.addr = addr then
      some ({ w with value := (w.value &&& wnot mask) ||| (value &&& mask),
                     mask := w.mask ||| mask } :: rest)
    else
      match mergeWrite rest addr value mask with
      | some rest' => some (w :: rest')
      | none => none

/-- The write-set entry appended by `stm_write` (with `NDEBUG` not
defined the source zeroes the value of a mask-0 entry and records the
overwritten version). -/
def newWEntry (addr value mask version : Word) (lock : Nat) : w_entry :=
  { addr := addr, value := if mask = 0 then 0 else value, mask := mask,
    version := version, lock := lock, no_drop := true }

/-- `stm_write`: read-only transactions abort with `RO_WRITE` (clearing
the read-only attribute first); an owned lock word is spun on
(`blocked`); an existing entry is merged; otherwise the overwritten
version is compared against the snapshot — a version beyond `end`
aborts with `VAL_WRITE` when extension is disabled or the stripe was
already read, and in every remaining case the write is buffered (the
lock is not acquired, and no extension is attempted). -/
def stm_write (tx : stm_tx) (g : GlobalState) (addr value mask : Word) : WriteRes :=
  if tx.ro then
    WriteRes.abort AbortReason.RO_WRITE { tx with attr_read_only := false }
  else
    let lock := LOCK_IDX addr
    match g.locks lock with
    | LockWord.unit => WriteRes.blocked
    | LockWord.owned _ _ => WriteRes.blocked
    | LockWord.free lv =>
      match mergeWrite tx.w_set addr value mask with
      | some ws' => WriteRes.ok { tx with w_set := ws' }
      | none =>
        if lv > tx.end_ then
          if !tx.can_extend || (stm_has_read tx lock).isSome then
            WriteRes.abort AbortReason.VAL_WRITE tx
          else
            WriteRes.ok { tx with w_set := tx.w_set ++ [newWEntry addr value mask lv lock] }
        else
          WriteRes.ok { tx with w_set := tx.w_set ++ [newWEntry addr value mask lv lock] }

/-- Result of `stm_commit`. -/
inductive CommitRes where
  | nested (tx : stm_tx)
  | committed (tx : stm_tx) (g : GlobalState)
  | aborted (reason : AbortReason) (tx : stm_tx) (g : GlobalState)

/-- The commit acquire phase: walk the write set in reverse order
(indices `i-1, i-2, ..., 0`); an entry whose lock is owned by this
transaction's own write set is skipped; one owned by anyone else
(including `LOCK_UNIT`) is a write-write conflict, returned as `error`
together with the partially acquired state; an unowned lock is CAS-ed to
point at the entry (which records the overwritten timestamp, clears
`no_drop` and bumps the acquired counter).  In the single-threaded model
the CAS always succeeds. -/
def acquireLocks (txid nbe : Nat) :
    Nat → List w_entry → (Nat → LockWord) → Nat →
    Except (List w_entry × (Nat → LockWord) × Nat)
           (List w_entry × (Nat → LockWord) × Nat)
  | 0, ws, locks, acq => Except.ok (ws, locks, acq)
  | i + 1, ws, locks, acq =>
    match ws[i]? with
    | none => Except.error (ws, locks, acq)
    | some w =>
      match locks w.lock with
      | LockWord.unit => Except.error (ws, locks, acq)
      | LockWord.owned t j =>
        if t = txid ∧ j < nbe then acquireLocks txid nbe i ws locks acq
        else Except.error (ws, locks, acq)
      | LockWord.free lv =>
        acquireLocks txid nbe i
          (ws.set i { w with no_drop := false, version := lv })
          (Function.update locks w.lock (LockWord.owned txid i))
          (acq + 1)

/-- One iteration of the publish loop of `stm_commit`: store the value
(full word, or read-modify-write under the held lock for a partial
mask; a zero mask writes nothing), then release the lock with the new
timestamp when the entry is the acquiring one. -/
def publishEntry (t : Word) (g : GlobalState) (w : w_entry) : GlobalState :=
  let g1 : GlobalState :=
    if w.mask = wordAll then { g with mem := Function.update g.mem w.addr w.value }
    else if w.mask ≠ 0 then
      { g with mem := Function.update g.mem w.addr
                        ((g.mem w.addr &&& wnot w.mask) ||| (w.value &&& w.mask)) }
    else g
  if w.no_drop then g1
  else { g1 with locks := Function.update g1.locks w.lock (LockWord.free t) }

/-- The publish phase of `stm_commit`: forward walk of the write set. -/
def publish (ws : List w_entry) (t : Word) (g : GlobalState) : GlobalState :=
  ws.foldl (publishEntry t) g

/-- `stm_commit` from line 2145 on, after every lock has been acquired:
fetch-and-increment the clock (`t = FETCH_INC_CLOCK + 1`), revalidate
the read set only when `tx.start != t - 1`, abort with `VALIDATE` on
failure, otherwise publish the write set and set status COMMITTED. -/
def commitPostAcquire (tx : stm_tx) (g : GlobalState) : CommitRes :=
  let t := g.clock + 1
  let g1 : GlobalState := { g with clock := t }
  if tx.start ≠ t - 1 ∧ ¬(stm_validate tx g1.locks = true) then
    let p := stm_rollback tx g1 AbortReason.VALIDATE
    CommitRes.aborted AbortReason.VALIDATE p.1 p.2
  else
    CommitRes.committed { tx with status := TxStatus.COMMITTED }
      (publish tx.w_set t g1)

/-- `stm_commit`: a nested commit only decrements the nesting counter;
a top-level commit with an empty write set sets status COMMITTED
immediately (no clock tick, no store); otherwise the acquire phase runs
(aborting with `WW_CONFLICT` on a foreign owner) followed by
`commitPostAcquire`. -/
def stm_commit (tx : stm_tx) (g : GlobalState) : CommitRes :=
  if tx.nesting - 1 > 0 then CommitRes.nested { tx with nesting := tx.nesting - 1 }
  else
    let tx0 : stm_tx := { tx with nesting := tx.nesting - 1 }
    if tx0.w_set.length = 0 then
      CommitRes.committed { tx0 with status := TxStatus.COMMITTED } g
    else
      match acquireLocks tx0.id tx0.w_set.length tx0.w_set.length tx0.w_set
              g.locks tx0.nb_acquired with
      | Except.error (ws, locks, acq) =>
        let tx1 : stm_tx := { tx0 with w_set := ws, nb_acquired := acq }
        let g1 : GlobalState := { g with locks := locks }
        let p := stm_rollback tx1 g1 AbortReason.WW_CONFLICT
        CommitRes.aborted AbortReason.WW_CONFLICT p.1 p.2
      | Except.ok (ws, locks, acq) =>
        let tx1 : stm_tx := { tx0 with w_set := ws, nb_acquired := acq }
        let g1 : GlobalState := { g with locks := locks }
        commitPostAcquire tx1 g1

/-- `stm_set_extension`: set the `can_extend` flag and, when a timestamp
is supplied that is below the current `end`, clamp `end` down to it. -/
def stm_set_extension (tx : stm_tx) (enable : Bool) (timestamp : Option Word) :
    stm_tx :=
  let tx1 : stm_tx := { tx with can_extend := enable }
  match timestamp with
  | some ts => if ts < tx1.end_ then { tx1 with end_ := ts } else tx1
  | none => tx1

/-- `stm_init_thread`: if the calling thread already has a descriptor,
return it at once (nothing is allocated, reset or registered);
otherwise initialise a fresh descriptor (status IDLE, empty sets,
nesting 0) and push it at the head of the thread registry.  The fresh
descriptor's uninitialised fields (`start`, `end`, attributes, ...)
are whatever `fresh` carries. -/
def stm_init_thread (cur : Option stm_tx) (threads : List stm_tx)
    (fresh : stm_tx) : stm_tx × Option stm_tx × List stm_tx :=
  match cur with
  | some tx => (tx, some tx, threads)
  | none =>
    let tx : stm_tx := { fresh with status := TxStatus.IDLE, r_set := [],
                                    w_set := [], nb_acquired := 0, nesting := 0 }
    (tx, some tx, tx :: threads)

/-- Exit test of the spin loops of `stm_read_invisible` (lines
1264-1277) and `stm_write` (lines 1388-1401): the loop re-reads the lock
while `LOCK_GET_OWNED`/`LOCK_GET_WRITE` holds, `LOCK_UNIT` included; it
proceeds only on an unowned word. -/
def spinFree : LockWord → Bool
  | LockWord.free _ => true
  | LockWord.owned _ _ => false
  | LockWord.unit => false

/-- The spin loop itself, against a schedule of observed lock words:
iteration `i` observes `sched i` and proceeds (returning the iteration
index and the word) when unowned; `fuel` bounds how many iterations are
examined, `none` meaning the loop was still spinning after that many. -/
def spinLoop (sched : Nat → LockWord) : Nat → Nat → Option (Nat × LockWord)
  | _, 0 => none
  | i, fuel + 1 =>
    match sched i with
    | LockWord.free v => some (i, LockWord.free v)
    | _ => spinLoop sched (i + 1) fuel

/-- One step of a transaction body: the run-level outcome. -/
inductive RunRes where
  | running (tx : stm_tx) (g : GlobalState)
  | committedR (tx : stm_tx) (g : GlobalState)
  | abortedR (reason : AbortReason) (tx : stm_tx) (g : GlobalState)
  | blockedR (g : GlobalState)

/-- A transactional operation issued by the body. -/
inductive TxOp where
  | load (addr : Word)
  | store (addr value : Word)
  | storeMasked (addr value mask : Word)
  | commitOp

/-- `stm_store`/`stm_store2` at the run level: a failing write rolls the
transaction back. -/
def stepWrite (tx : stm_tx) (g : GlobalState) (addr value mask : Word) : RunRes :=
  match stm_write tx g addr value mask with
  | WriteRes.ok tx' => RunRes.running tx' g
  | WriteRes.abort r tx' =>
    let p := stm_rollback tx' g r
    RunRes.abortedR r p.1 p.2
  | WriteRes.blocked => RunRes.blockedR g

/-- One operation of the body: loads and stores consult the lock table
and mutate the descriptor; commit runs the commit protocol. -/
def stepOp (tx : stm_tx) (g : GlobalState) : TxOp → RunRes
  | TxOp.load a =>
    match stm_read_invisible tx g a with
    | ReadRes.ok _ tx' => RunRes.running tx' g
    | ReadRes.abort r tx' =>
      let p := stm_rollback tx' g r
      RunRes.abortedR r p.1 p.2
    | ReadRes.blocked => RunRes.blockedR g
  | TxOp.store a v => stepWrite tx g a v wordAll
  | TxOp.storeMasked a v m => stepWrite tx g a v m
  | TxOp.commitOp =>
    match stm_commit tx g with
    | CommitRes.committed tx' g' => RunRes.committedR tx' g'
    | CommitRes.nested tx' => RunRes.running tx' g
    | CommitRes.aborted r tx' g' => RunRes.abortedR r tx' g'

/-- Run a list of operations from a begin state; the run stops at the
first commit, abort or blocked spin. -/
def runOps (tx : stm_tx) (g : GlobalState) : List TxOp → RunRes
  | [] => RunRes.running tx g
  | op :: rest =>
    match stepOp tx g op with
    | RunRes.running tx' g' => runOps tx' g' rest
    | r => r

/-- The per-entry criterion of the claim on `stm_validate`, written from
the spec's words (§4.7): an owned lock word whose pointer falls inside
this transaction's own write-set array passes exactly when the owning
entry's captured version equals the version read; owned by anyone else
fails; unowned passes exactly when the version field equals the version
read. -/
def specEntryPasses (tx : stm_tx) (locks : Nat → LockWord) (r : r_entry) : Prop :=
  match locks r.lock with
  | LockWord.free v => v = r.version
  | LockWord.owned t i =>
    if t = tx.id ∧ i < tx.w_set.length then
      ∃ w, tx.w_set[i]? = some w ∧ w.version = r.version
    else False
  | LockWord.unit => False

/-- Read-only defaults for building concrete example descriptors. -/
def baseTx : stm_tx :=
  { id := 0, status := TxStatus.ACTIVE, start := 0, end_ := 0, r_set := [],
    w_set := [], nb_acquired := 0, ro := false, can_extend := true,
    attr_read_only := false, attr_no_retry := false, nesting := 1 }

/-- Example state for the write-path claim: snapshot `[0,0]`, a read-set
entry on lock slot 1 recorded at version 0 while that slot now holds
version 7 (so a validation, hence an extension, fails), and lock slot 0
(covering address 0) at version 5. -/
def c1tx : stm_tx := { baseTx with r_set := [⟨0, 1⟩] }

/-- Lock table and clock for the write-path claim. -/
def c1g : GlobalState :=
  { clock := 5,
    locks := fun i => if i = 0 then LockWord.free 5 else LockWord.free 7,
    mem := fun _ => 0 }

/-- Example descriptor for the rollback claim: one acquired entry
(`no_drop` clear) on lock slot 3 with captured version 9. -/
def c2tx : stm_tx :=
  { baseTx with
    w_set := [{ addr := 96, value := 1, mask := wordAll, version := 9,
                lock := 3, no_drop := false }],
    nb_acquired := 1 }

/-- Global state for the rollback claim: lock slot 3 is owned by the
example descriptor. -/
def c2g : GlobalState :=
  { clock := 10,
    locks := fun i => if i = 3 then LockWord.owned 0 0 else LockWord.free 0,
    mem := fun _ => 0 }

/-- Post-acquire descriptor for the commit claim: `start = 0` while the
clock is at 3, and a read-set entry recorded at version 5 whose slot now
holds version 7 (so the revalidation fails). -/
def c4tx : stm_tx :=
  { baseTx with
    r_set := [⟨5, 0⟩],
    w_set := [{ addr := 0, value := 1, mask := wordAll, version := 7,
                lock := 1, no_drop := false }],
    nb_acquired := 1 }

/-- Global state for the commit claim. -/
def c4g : GlobalState :=
  { clock := 3,
    locks := fun i => if i = 1 then LockWord.owned 0 0 else LockWord.free 7,
    mem := fun _ => 0 }

/-- Example state for the read-your-own-writes claim. -/
def c6g : GlobalState :=
  { clock := 0, locks := fun _ => LockWord.free 0, mem := fun _ => 77 }

/-- Example descriptor for the read-set-bound claim: one entry at
version 5 with `end = 5`. -/
def c7tx : stm_tx := { baseTx with end_ := 5, r_set := [⟨5, 0⟩] }

/-- Global state for the read-set-bound claim's witness. -/
def c7g : GlobalState :=
  { clock := 6, locks := fun _ => LockWord.free 0, mem := fun _ => 0 }

/-- Example read-only descriptor for the read-only-store claim. -/
def c8tx : stm_tx := { baseTx with ro := true, attr_read_only := true }

/-- Global state for the read-only-store claim. -/
def c8g : GlobalState :=
  { clock := 0, locks := fun _ => LockWord.free 0, mem := fun _ => 5 }

/-- A per-entry validation check agrees with the spec's criterion. -/
theorem validateEntry_eq_spec (tx : stm_tx) (locks : Nat → LockWord) (r : r_entry) :
    validateEntry tx.id tx.w_set locks r = true ↔ specEntryPasses tx locks r := by
  unfold validateEntry specEntryPasses
  cases h : locks r.lock with
  | unit => simp
  | free v => simp
  | owned t i =>
    by_cases ht : t = tx.id
    · subst ht
      simp only [if_pos rfl, true_and]
      cases hw : tx.w_set[i]? with
      | none =>
        have hi : ¬ i < tx.w_set.length := by
          intro hlt
          rw [List.getElem?_eq_getElem hlt] at hw
          exact Option.noConfusion hw
        simp [hi, hw]
      | some w =>
        have hi : i < tx.w_set.length := by
          by_contra hge
          rw [List.getElem?_eq_none (Nat.le_of_not_lt hge)] at hw
          exact Option.noConfusion hw
        simp [hi, hw]
    · simp [ht]

/-- C3: `stm_validate` succeeds if and only if every read-set entry
passes the claim's criterion: owned by this transaction's own write set
passes exactly when the owning entry's captured version equals the
version read; owned by anyone else fails; unowned passes exactly when
the version field equals the version read. -/
theorem stm_validate_iff_spec (tx : stm_tx) (locks : Nat → LockWord) :
    stm_validate tx locks = true ↔ ∀ r ∈ tx.r_set, specEntryPasses tx locks r := by
  unfold stm_validate
  rw [List.all_eq_true]
  exact forall₂_congr (fun r _ => validateEntry_eq_spec tx locks r)

/-- C5: a top-level commit of a transaction with an empty write set sets
the status to COMMITTED and succeeds, leaving the entire shared state
(clock, lock table, memory) untouched. -/
theorem commit_empty_write_set (tx : stm_tx) (g : GlobalState)
    (hn : tx.nesting = 1) (hw : tx.w_set = []) :
    stm_commit tx g =
      CommitRes.committed { tx with nesting := 0, status := TxStatus.COMMITTED } g := by
  unfold stm_commit
  rw [hn]
  simp [hw]

/-- Witness for the empty-write-set commit at a concrete state. -/
theorem commit_empty_write_set_witness :
    baseTx.nesting = 1 ∧ baseTx.w_set = [] ∧
    stm_commit baseTx c8g =
      CommitRes.committed { baseTx with nesting := 0, status := TxStatus.COMMITTED } c8g :=
  ⟨rfl, rfl, commit_empty_write_set baseTx c8g rfl rfl⟩

/-- C10: a second `stm_init_thread` by a thread that already has a
descriptor returns that same descriptor at once: nothing is allocated,
no field of the descriptor is reset, and the thread registry is left
unchanged. -/
theorem init_thread_idempotent (tx fresh : stm_tx) (threads : List stm_tx) :
    stm_init_thread (some tx) threads fresh = (tx, some tx, threads) := rfl

/-- On a schedule that keeps the lock word owned, the spin loop never
proceeds, whatever the iteration bound. -/
theorem spinLoop_const_owned (fuel i : Nat) :
    spinLoop (fun _ => LockWord.owned 1 0) i fuel = none := by
  induction fuel generalizing i with
  | zero => rfl
  | succ n ih => simpa [spinLoop] using ih (i + 1)

/-- C9 counterexample: the busy-wait on an owned lock word is not
bounded — against the schedule that keeps the word owned, no iteration
bound makes the loop proceed (nor does the transaction restart: the
loop has no abort path). -/
theorem spin_not_bounded_cex :
    ¬ ∃ B : Nat, (spinLoop (fun _ => LockWord.owned 1 0) 0 B).isSome = true := by
  rintro ⟨B, hB⟩
  rw [spinLoop_const_owned B 0] at hB
  exact Bool.noConfusion hB

/-- C9 amended: the spin loop of the read and write paths is unbounded —
it proceeds within `fuel` iterations exactly when one of the first
`fuel` observed lock words is unowned; while every observation stays
owned it keeps spinning. -/
theorem spin_exits_iff_unowned (sched : Nat → LockWord) (i fuel : Nat) :
    (spinLoop sched i fuel).isSome = true ↔
      ∃ j, j < fuel ∧ spinFree (sched (i + j)) = true := by
  induction fuel generalizing i with
  | zero => simp [spinLoop]
  | succ n ih =>
    cases h : sched i with
    | free v =>
      simp only [spinLoop, h]
      constructor
      · intro _
        exact ⟨0, Nat.succ_pos n, by simp [h, spinFree]⟩
      · intro _
        rfl
    | owned t j =>
      simp only [spinLoop, h]
      rw [ih (i + 1)]
      constructor
      · rintro ⟨j', hj', hfree⟩
        exact ⟨j' + 1, by omega, by simpa [Nat.add_assoc, Nat.add_comm 1 j'] using hfree⟩
      · rintro ⟨j', hj', hfree⟩
        cases j' with
        | zero => simp [h, spinFree] at hfree
        | succ k =>
          refine ⟨k, by omega, ?_⟩
          simpa [Nat.add_assoc, Nat.add_comm 1 k] using hfree
    | unit =>
      simp only [spinLoop, h]
      rw [ih (i + 1)]
      constructor
      · rintro ⟨j', hj', hfree⟩
        exact ⟨j' + 1, by omega, by simpa [Nat.add_assoc, Nat.add_comm 1 j'] using hfree⟩
      · rintro ⟨j', hj', hfree⟩
        cases j' with
        | zero => simp [h, spinFree] at hfree
        | succ k =>
          refine ⟨k, by omega, ?_⟩
          simpa [Nat.add_assoc, Nat.add_comm 1 k] using hfree

/-- A write set with no entry for an address yields no merge. -/
theorem mergeWrite_none (ws : List w_entry) (addr value mask : Word)
    (h : ∀ w ∈ ws, w.addr ≠ addr) :
    mergeWrite ws addr value mask = none := by
  induction ws with
  | nil => rfl
  | cons w rest ih =>
    have hw : ¬ w.addr = addr := h w (List.mem_cons_self _ _)
    simp only [mergeWrite, if_neg hw]
    rw [ih (fun w' hw' => h w' (List.mem_cons_of_mem _ hw'))]

/-- C1 counterexample: a store to a stripe whose version (5) exceeds the
snapshot, with extension enabled and the stripe's lock absent from the
read set, while a snapshot extension would fail (`stm_extend` returns
`none` since another read-set entry no longer validates) — yet the write
path buffers the write and returns normally instead of aborting, and
the snapshot `end` is left unchanged: no extension is attempted. -/
theorem stm_write_no_extension_cex :
    stm_extend c1tx c1g = none ∧
    c1tx.can_extend = true ∧
    stm_has_read c1tx (LOCK_IDX 0) = none ∧
    stm_write c1tx c1g 0 42 wordAll =
      WriteRes.ok { c1tx with w_set := [newWEntry 0 42 wordAll 5 0] } ∧
    ({ c1tx with w_set := [newWEntry 0 42 wordAll 5 0] } : stm_tx).end_ = c1tx.end_ := by
  refine ⟨?_, rfl, rfl, ?_, rfl⟩ <;> rfl

/-- C1 amended: for a store to a stripe whose current version exceeds
`tx.end`, the write path aborts with `VAL_WRITE` exactly when extension
is disabled or the read set already contains the stripe's lock; in
every other case it buffers the write without attempting an extension,
leaving `tx.end` (and the whole rest of the descriptor) unchanged. -/
theorem stm_write_beyond_snapshot (tx : stm_tx) (g : GlobalState)
    (addr value mask lv : Word)
    (hro : tx.ro = false)
    (hl : g.locks (LOCK_IDX addr) = LockWord.free lv)
    (hfresh : ∀ w ∈ tx.w_set, w.addr ≠ addr)
    (hv : lv > tx.end_) :
    (stm_write tx g addr value mask = WriteRes.abort AbortReason.VAL_WRITE tx ↔
      (tx.can_extend = false ∨ (stm_has_read tx (LOCK_IDX addr)).isSome = true)) ∧
    (tx.can_extend = true → (stm_has_read tx (LOCK_IDX addr)).isSome = false →
      stm_write tx g addr value mask =
        WriteRes.ok { tx with
          w_set := tx.w_set ++ [newWEntry addr value mask lv (LOCK_IDX addr)] }) := by
  have hmerge : mergeWrite tx.w_set addr value mask = none :=
    mergeWrite_none tx.w_set addr value mask hfresh
  unfold stm_write
  simp only [hro, Bool.false_eq_true, if_false, hl, hmerge, if_pos hv]
  cases hce : tx.can_extend with
  | false => simp
  | true =>
    cases hhr : (stm_has_read tx (LOCK_IDX addr)).isSome with
    | false => simp [hhr]
    | true => simp [hhr]

/-- Witness for the amended write-path claim at a concrete state. -/
theorem stm_write_beyond_snapshot_witness :
    stm_write c1tx c1g 0 42 wordAll =
      WriteRes.ok { c1tx with
        w_set := c1tx.w_set ++ [newWEntry 0 42 wordAll 5 (LOCK_IDX 0)] } :=
  (stm_write_beyond_snapshot c1tx c1g 0 42 wordAll 5 rfl rfl
    (fun w hw => absurd hw (by simp [c1tx, baseTx])) (by decide)).2 rfl rfl

/-- Releasing zero acquired locks leaves the lock table unchanged. -/
theorem dropLocks_zero (ws : List w_entry) (locks : Nat → LockWord) :
    dropLocks ws 0 locks = locks := by
  cases ws <;> rfl

/-- A rollback of a transaction that has acquired no lock, below the
clock-rollover bound, leaves the whole shared state unchanged. -/
theorem stm_rollback_g_eq (tx : stm_tx) (g : GlobalState) (r : AbortReason)
    (hacq : tx.nb_acquired = 0) (hclk : g.clock < VERSION_MAX) :
    (stm_rollback tx g r).2 = g := by
  unfold stm_rollback
  rw [hacq, dropLocks_zero]
  have hg : ({ g with locks := g.locks } : GlobalState) = g := rfl
  simp only [hg]
  split
  · rfl
  · unfold stm_prepare
    rw [if_neg (Nat.not_le.mpr hclk)]

/-- C8: a store issued inside a read-only transaction aborts with
`RO_WRITE` before buffering anything (the descriptor is unchanged except
for the cleared read-only attribute), and the whole abort leaves the
shared state — memory and lock table — exactly as it was. -/
theorem ro_store_aborts (tx : stm_tx) (g : GlobalState) (addr value mask : Word)
    (hro : tx.ro = true) (hacq : tx.nb_acquired = 0) (hclk : g.clock < VERSION_MAX) :
    stm_write tx g addr value mask =
      WriteRes.abort AbortReason.RO_WRITE { tx with attr_read_only := false } ∧
    ∃ tx', stepWrite tx g addr value mask =
      RunRes.abortedR AbortReason.RO_WRITE tx' g := by
  have h1 : stm_write tx g addr value mask =
      WriteRes.abort AbortReason.RO_WRITE { tx with attr_read_only := false } := by
    unfold stm_write
    simp [hro]
  refine ⟨h1, (stm_rollback { tx with attr_read_only := false } g AbortReason.RO_WRITE).1, ?_⟩
  have h2 : (stm_rollback { tx with attr_read_only := false } g AbortReason.RO_WRITE).2 = g :=
    stm_rollback_g_eq _ g _ hacq hclk
  unfold stepWrite
  rw [h1]
  simp only []
  rw [h2]

/-- Witness for the read-only-store claim at a concrete state. -/
theorem ro_store_aborts_witness :
    stm_write c8tx c8g 0 9 wordAll =
      WriteRes.abort AbortReason.RO_WRITE { c8tx with attr_read_only := false } :=
  (ro_store_aborts c8tx c8g 0 9 wordAll rfl rfl (by decide)).1

/-- One publish iteration never touches the clock. -/
theorem publishEntry_clock (t : Word) (g : GlobalState) (w : w_entry) :
    (publishEntry t g w).clock = g.clock := by
  unfold publishEntry
  by_cases h1 : w.mask = wordAll <;> by_cases h2 : w.mask ≠ 0 <;>
    by_cases h3 : w.no_drop <;> simp [h1, h2, h3]

/-- The publish phase never touches the clock. -/
theorem publish_clock (ws : List w_entry) (t : Word) (g : GlobalState) :
    (publish ws t g).clock = g.clock := by
  induction ws generalizing g with
  | nil => rfl
  | cons w rest ih =>
    show (publish rest t (publishEntry t g w)).clock = g.clock
    rw [ih (publishEntry t g w), publishEntry_clock]

/-- C4: after the commit acquire phase, the commit timestamp is the
fetch-and-incremented clock plus zero offset from `t = old + 1`; an
abort is possible only with reason `VALIDATE`, and only when `tx.start`
differs from `t - 1` and the revalidation fails; when `tx.start = t - 1`
the read set is not revalidated at all (the transaction commits even if
validation would fail), and a passing validation also commits. -/
theorem commit_post_acquire_spec (tx : stm_tx) (g : GlobalState) :
    (∀ r tx' g', commitPostAcquire tx g = CommitRes.aborted r tx' g' →
        r = AbortReason.VALIDATE ∧ tx.start ≠ g.clock ∧
        stm_validate tx g.locks = false) ∧
    (∀ tx' g', commitPostAcquire tx g = CommitRes.committed tx' g' →
        g'.clock = g.clock + 1) ∧
    (tx.start = g.clock →
        commitPostAcquire tx g =
          CommitRes.committed { tx with status := TxStatus.COMMITTED }
            (publish tx.w_set (g.clock + 1) { g with clock := g.clock + 1 })) ∧
    (stm_validate tx g.locks = true →
        commitPostAcquire tx g =
          CommitRes.committed { tx with status := TxStatus.COMMITTED }
            (publish tx.w_set (g.clock + 1) { g with clock := g.clock + 1 })) := by
  unfold commitPostAcquire
  simp only [Nat.add_sub_cancel]
  by_cases h1 : tx.start = g.clock
  · rw [if_neg (by simp [h1])]
    refine ⟨?_, ?_, fun _ => rfl, fun _ => rfl⟩
    · intro r tx' g' h
      exact CommitRes.noConfusion h
    · intro tx' g' h
      have := (CommitRes.committed.injEq _ _ _ _).mp h
      rw [← this.2, publish_clock]
  · by_cases h2 : stm_validate tx g.locks = true
    · rw [if_neg (by simp [h2])]
      refine ⟨?_, ?_, fun h => absurd h h1, fun _ => rfl⟩
      · intro r tx' g' h
        exact CommitRes.noConfusion h
      · intro tx' g' h
        have := (CommitRes.committed.injEq _ _ _ _).mp h
        rw [← this.2, publish_clock]
    · rw [if_pos ⟨h1, h2⟩]
      refine ⟨?_, ?_, fun h => absurd h h1, fun h => absurd h h2⟩
      · intro r tx' g' h
        have := (CommitRes.aborted.injEq _ _ _ _ _ _).mp h
        exact ⟨this.1.symm, h1, Bool.eq_false_iff.mpr h2⟩
      · intro tx' g' h
        exact CommitRes.noConfusion h

/-- Witness for the commit claim: a concrete post-acquire state whose
revalidation fails (so the commit there aborts with `VALIDATE`). -/
theorem commit_post_acquire_spec_witness :
    stm_validate c4tx c4g.locks = false :=
  ((commit_post_acquire_spec c4tx c4g).1 AbortReason.VALIDATE _ _ rfl).2.2

/-- The release loop leaves untouched every slot that no released entry
covers. -/
theorem dropLocks_apply_notin (ws : List w_entry) (acq : Nat)
    (locks : Nat → LockWord) (p : Nat)
    (h : ∀ w ∈ ws, w.no_drop = false → w.lock ≠ p) :
    dropLocks ws acq locks p = locks p := by
  induction ws generalizing acq locks with
  | nil => cases acq <;> rfl
  | cons w rest ih =>
    cases acq with
    | zero => rfl
    | succ n =>
      by_cases hnd : w.no_drop
      · show (if w.no_drop then dropLocks rest (n + 1) locks
              else dropLocks rest n
                (Function.update locks w.lock (LockWord.free w.version))) p = locks p
        rw [if_pos hnd]
        exact ih (n + 1) locks (fun w' hw' => h w' (List.mem_cons_of_mem _ hw'))
      · show (if w.no_drop then dropLocks rest (n + 1) locks
              else dropLocks rest n
                (Function.update locks w.lock (LockWord.free w.version))) p = locks p
        rw [if_neg hnd]
        rw [ih n _ (fun w' hw' => h w' (List.mem_cons_of_mem _ hw'))]
        exact Function.update_noteq
          (Ne.symm (h w (List.mem_cons_self _ _) (Bool.eq_false_iff.mpr hnd))) _ _

/-- The release loop, run with the acquired count equal to the number of
acquiring entries and with those entries covering pairwise-distinct
slots, stores each acquiring entry's captured version back into its
slot. -/
theorem dropLocks_acquired (ws : List w_entry) (locks : Nat → LockWord)
    (hnd : ((ws.filter (fun w => !w.no_drop)).map (fun w => w.lock)).Nodup) :
    ∀ w ∈ ws, w.no_drop = false →
      dropLocks ws (ws.filter (fun w => !w.no_drop)).length locks w.lock =
        LockWord.free w.version := by
  induction ws generalizing locks with
  | nil => intro w hw; cases hw
  | cons a rest ih =>
    intro w hw hwnd
    by_cases hand : a.no_drop
    · have hfilter : (a :: rest).filter (fun w => !w.no_drop) =
          rest.filter (fun w => !w.no_drop) := by
        simp [List.filter_cons, hand]
      rw [hfilter] at hnd ⊢
      rcases List.mem_cons.mp hw with rfl | hwrest
      · rw [hand] at hwnd
        exact Bool.noConfusion hwnd
      · have hwf : w ∈ rest.filter (fun w => !w.no_drop) :=
          List.mem_filter.mpr ⟨hwrest, by simp [hwnd]⟩
        have hpos : 0 < (rest.filter (fun w => !w.no_drop)).length :=
          List.length_pos.mpr (List.ne_nil_of_mem hwf)
        obtain ⟨k, hk⟩ : ∃ k, (rest.filter (fun w => !w.no_drop)).length = k + 1 :=
          ⟨(rest.filter (fun w => !w.no_drop)).length - 1, by omega⟩
        rw [hk]
        show (if a.no_drop then dropLocks rest (k + 1) locks
              else dropLocks rest k
                (Function.update locks a.lock (LockWord.free a.version))) w.lock =
            LockWord.free w.version
        rw [if_pos hand, ← hk]
        exact ih locks hnd w hwrest hwnd
    · have hfilter : (a :: rest).filter (fun w => !w.no_drop) =
          a :: rest.filter (fun w => !w.no_drop) := by
        simp [List.filter_cons, Bool.eq_false_iff.mp (Bool.of_not_eq_true hand)]
      rw [hfilter] at hnd ⊢
      rw [List.map_cons] at hnd
      have hndcons := List.nodup_cons.mp hnd
      rw [List.length_cons]
      show (if a.no_drop then
              dropLocks rest ((rest.filter (fun w => !w.no_drop)).length + 1) locks
            else dropLocks rest (rest.filter (fun w => !w.no_drop)).length
              (Function.update locks a.lock (LockWord.free a.version))) w.lock =
          LockWord.free w.version
      rw [if_neg hand]
      rcases List.mem_cons.mp hw with rfl | hwrest
      · rw [dropLocks_apply_notin]
        · exact Function.update_same _ _ _
        · intro w' hw' hw'nd hlock
          exact hndcons.1 (by
            rw [← hlock]
            exact List.mem_map.mpr
              ⟨w', List.mem_filter.mpr ⟨hw', by simp [hw'nd]⟩, rfl⟩)
      · exact ih _ hndcons.2 w hwrest hwnd

/-- The lock table after a rollback (below the rollover bound) is the
one produced by the release loop over the reversed write set. -/
theorem stm_rollback_locks (tx : stm_tx) (g : GlobalState) (r : AbortReason)
    (hclk : g.clock < VERSION_MAX) :
    (stm_rollback tx g r).2.locks =
      dropLocks tx.w_set.reverse tx.nb_acquired g.locks := by
  unfold stm_rollback
  dsimp only
  split
  · rfl
  · unfold stm_prepare
    rw [if_neg]
    exact Nat.not_le.mpr hclk

/-- `stm_prepare` never touches application memory. -/
theorem stm_prepare_mem (tx : stm_tx) (g : GlobalState) :
    (stm_prepare tx g).2.mem = g.mem := by
  unfold stm_prepare
  split <;> rfl

/-- `stm_rollback` never touches application memory. -/
theorem stm_rollback_mem (tx : stm_tx) (g : GlobalState) (r : AbortReason) :
    (stm_rollback tx g r).2.mem = g.mem := by
  unfold stm_rollback
  dsimp only
  split
  · rfl
  · exact stm_prepare_mem _ _

/-- An aborting `stm_commit` never touches application memory (the
publish phase runs only on the committing path). -/
theorem stm_commit_aborted_mem (tx : stm_tx) (g : GlobalState) (r : AbortReason)
    (tx' : stm_tx) (g' : GlobalState)
    (h : stm_commit tx g = CommitRes.aborted r tx' g') : g'.mem = g.mem := by
  unfold stm_commit at h
  dsimp only at h
  split at h
  · exact CommitRes.noConfusion h
  · split at h
    · exact CommitRes.noConfusion h
    · split at h
      · have hg := ((CommitRes.aborted.injEq _ _ _ _ _ _).mp h).2.2
        rw [← hg]
        exact stm_rollback_mem _ _ _
      · unfold commitPostAcquire at h
        dsimp only at h
        split at h
        · have hg := ((CommitRes.aborted.injEq _ _ _ _ _ _).mp h).2.2
          rw [← hg]
          exact stm_rollback_mem _ _ _
        · exact CommitRes.noConfusion h

/-- A step that keeps the transaction running leaves memory unchanged. -/
theorem stepOp_running_mem (tx : stm_tx) (g : GlobalState) (op : TxOp)
    (tx' : stm_tx) (g' : GlobalState)
    (h : stepOp tx g op = RunRes.running tx' g') : g'.mem = g.mem := by
  cases op with
  | load a =>
    cases hr : stm_read_invisible tx g a with
    | ok v tx2 =>
      simp only [stepOp, hr, RunRes.running.injEq] at h
      rw [← h.2]
    | abort r2 tx2 => simp only [stepOp, hr, reduceCtorEq] at h
    | blocked => simp only [stepOp, hr, reduceCtorEq] at h
  | store a v =>
    cases hw : stm_write tx g a v wordAll with
    | ok tx2 =>
      simp only [stepOp, stepWrite, hw, RunRes.running.injEq] at h
      rw [← h.2]
    | abort r2 tx2 => simp only [stepOp, stepWrite, hw, reduceCtorEq] at h
    | blocked => simp only [stepOp, stepWrite, hw, reduceCtorEq] at h
  | storeMasked a v m =>
    cases hw : stm_write tx g a v m with
    | ok tx2 =>
      simp only [stepOp, stepWrite, hw, RunRes.running.injEq] at h
      rw [← h.2]
    | abort r2 tx2 => simp only [stepOp, stepWrite, hw, reduceCtorEq] at h
    | blocked => simp only [stepOp, stepWrite, hw, reduceCtorEq] at h
  | commitOp =>
    cases hc : stm_commit tx g with
    | committed tx2 g2 => simp only [stepOp, hc, reduceCtorEq] at h
    | nested tx2 =>
      simp only [stepOp, hc, RunRes.running.injEq] at h
      rw [← h.2]
    | aborted r2 tx2 g2 => simp only [stepOp, hc, reduceCtorEq] at h

/-- A step that aborts the transaction leaves memory unchanged. -/
theorem stepOp_aborted_mem (tx : stm_tx) (g : GlobalState) (op : TxOp)
    (r : AbortReason) (tx' : stm_tx) (g' : GlobalState)
    (h : stepOp tx g op = RunRes.abortedR r tx' g') : g'.mem = g.mem := by
  cases op with
  | load a =>
    cases hr : stm_read_invisible tx g a with
    | ok v tx2 => simp only [stepOp, hr, reduceCtorEq] at h
    | abort r2 tx2 =>
      simp only [stepOp, hr, RunRes.abortedR.injEq] at h
      rw [← h.2.2]
      exact stm_rollback_mem _ _ _
    | blocked => simp only [stepOp, hr, reduceCtorEq] at h
  | store a v =>
    cases hw : stm_write tx g a v wordAll with
    | ok tx2 => simp only [stepOp, stepWrite, hw, reduceCtorEq] at h
    | abort r2 tx2 =>
      simp only [stepOp, stepWrite, hw, RunRes.abortedR.injEq] at h
      rw [← h.2.2]
      exact stm_rollback_mem _ _ _
    | blocked => simp only [stepOp, stepWrite, hw, reduceCtorEq] at h
  | storeMasked a v m =>
    cases hw : stm_write tx g a v m with
    | ok tx2 => simp only [stepOp, stepWrite, hw, reduceCtorEq] at h
    | abort r2 tx2 =>
      simp only [stepOp, stepWrite, hw, RunRes.abortedR.injEq] at h
      rw [← h.2.2]
      exact stm_rollback_mem _ _ _
    | blocked => simp only [stepOp, stepWrite, hw, reduceCtorEq] at h
  | commitOp =>
    cases hc : stm_commit tx g with
    | committed tx2 g2 => simp only [stepOp, hc, reduceCtorEq] at h
    | nested tx2 => simp only [stepOp, hc, reduceCtorEq] at h
    | aborted r2 tx2 g2 =>
      simp only [stepOp, hc, RunRes.abortedR.injEq] at h
      rw [← h.2.2]
      exact stm_commit_aborted_mem _ _ _ _ _ hc

/-- An aborted run leaves every word of memory as it was at begin. -/
theorem runOps_aborted_mem (ops : List TxOp) :
    ∀ tx g r tx' g', runOps tx g ops = RunRes.abortedR r tx' g' →
      g'.mem = g.mem := by
  induction ops with
  | nil =>
    intro tx g r tx' g' h
    exact RunRes.noConfusion h
  | cons op rest ih =>
    intro tx g r tx' g' h
    cases hstep : stepOp tx g op with
    | running tx2 g2 =>
      simp only [runOps, hstep] at h
      rw [ih tx2 g2 r tx' g' h]
      exact stepOp_running_mem tx g op tx2 g2 hstep
    | committedR tx2 g2 => simp only [runOps, hstep, reduceCtorEq] at h
    | abortedR r2 tx2 g2 =>
      simp only [runOps, hstep, RunRes.abortedR.injEq] at h
      rw [← h.2.2]
      exact stepOp_aborted_mem tx g op r2 tx2 g2 hstep
    | blockedR g2 => simp only [runOps, hstep, reduceCtorEq] at h

/-- C2: rollback releases every lock the transaction acquired in the
commit acquire phase (the entries whose `no_drop` flag is clear, which
cover pairwise-distinct slots and are counted by `nb_acquired`) by
storing back the version captured at acquisition; and no buffered write
is ever published on an aborted run — after an abort, application
memory is exactly what it was when the transaction began. -/
theorem rollback_releases_and_preserves_memory
    (tx : stm_tx) (g : GlobalState) (r : AbortReason)
    (tx0 : stm_tx) (g0 : GlobalState) (ops : List TxOp)
    (hnodup : ((tx.w_set.filter (fun w => !w.no_drop)).map (fun w => w.lock)).Nodup)
    (hacq : tx.nb_acquired = (tx.w_set.filter (fun w => !w.no_drop)).length)
    (hclk : g.clock < VERSION_MAX) :
    (∀ w ∈ tx.w_set, w.no_drop = false →
        (stm_rollback tx g r).2.locks w.lock = LockWord.free w.version) ∧
    (∀ r' tx' g', runOps tx0 g0 ops = RunRes.abortedR r' tx' g' →
        g'.mem = g0.mem) := by
  constructor
  · intro w hw hwnd
    rw [stm_rollback_locks tx g r hclk]
    have hrev : tx.nb_acquired =
        (tx.w_set.reverse.filter (fun w => !w.no_drop)).length := by
      rw [List.filter_reverse, List.length_reverse]
      exact hacq
    rw [hrev]
    apply dropLocks_acquired
    · rw [List.filter_reverse, List.map_reverse]
      exact List.nodup_reverse.mpr hnodup
    · exact List.mem_reverse.mpr hw
    · exact hwnd
  · intro r' tx' g' h
    exact runOps_aborted_mem ops tx0 g0 r' tx' g' h

/-- Witness for the rollback claim: the acquired example lock slot gets
its captured version (9) stored back. -/
theorem rollback_releases_witness :
    (stm_rollback c2tx c2g AbortReason.WW_CONFLICT).2.locks 3 = LockWord.free 9 := by
  have h := (rollback_releases_and_preserves_memory c2tx c2g AbortReason.WW_CONFLICT
    c2tx c2g [] (by decide) (by decide) (by decide)).1
  exact h { addr := 96, value := 1, mask := wordAll, version := 9,
            lock := 3, no_drop := false } (by decide) rfl

/-- A freshly appended entry is the one the write-set lookup finds when
no earlier entry covers the address. -/
theorem stm_has_written_append (ws : List w_entry) (e : w_entry) (addr : Word)
    (h : ∀ w ∈ ws, w.addr ≠ addr) (he : e.addr = addr) :
    stm_has_written (ws ++ [e]) addr = some e := by
  unfold stm_has_written
  induction ws with
  | nil =>
    simp [List.find?, he]
  | cons w rest ih =>
    rw [List.cons_append, List.find?_cons_of_neg]
    · exact ih (fun w' hw' => h w' (List.mem_cons_of_mem _ hw'))
    · simp [h w (List.mem_cons_self _ _)]

/-- Below the snapshot bound, `stm_write` to a fresh address appends the
entry and succeeds, whatever the mask. -/
theorem stm_write_fresh (tx : stm_tx) (g : GlobalState) (addr value mask lv : Word)
    (hro : tx.ro = false)
    (hl : g.locks (LOCK_IDX addr) = LockWord.free lv)
    (hv : lv ≤ tx.end_)
    (hfresh : ∀ w ∈ tx.w_set, w.addr ≠ addr) :
    stm_write tx g addr value mask =
      WriteRes.ok { tx with
        w_set := tx.w_set ++ [newWEntry addr value mask lv (LOCK_IDX addr)] } := by
  unfold stm_write
  simp only [hro, Bool.false_eq_true, if_false, hl,
    mergeWrite_none tx.w_set addr value mask hfresh,
    if_neg (Nat.not_lt.mpr hv)]

/-- C6: within a single transaction, a store followed by a load of the
same (previously unwritten) address reads the transaction's own write:
with a full mask the load returns the buffered value directly, without
appending to the read set; with a partial mask it returns the in-memory
word overlaid with the buffered bytes, `(mem & ~mask) | (value & mask)`
(and appends the stripe to the read set as usual). -/
theorem read_your_own_writes (tx : stm_tx) (g : GlobalState) (addr value lv : Word)
    (hro : tx.ro = false)
    (hl : g.locks (LOCK_IDX addr) = LockWord.free lv)
    (hv : lv ≤ tx.end_)
    (hfresh : ∀ w ∈ tx.w_set, w.addr ≠ addr) :
    (∃ tx', stm_write tx g addr value wordAll = WriteRes.ok tx' ∧
        stm_read_invisible tx' g addr = ReadRes.ok value tx') ∧
    (∀ mask, mask ≠ wordAll →
      ∃ tx', stm_write tx g addr value mask = WriteRes.ok tx' ∧
        stm_read_invisible tx' g addr =
          ReadRes.ok ((g.mem addr &&& wnot mask) ||| (value &&& mask))
            (appendRead tx' (LOCK_IDX addr) lv)) := by
  constructor
  · refine ⟨_, stm_write_fresh tx g addr value wordAll lv hro hl hv hfresh, ?_⟩
    unfold stm_read_invisible
    simp only [stm_has_written_append tx.w_set
      (newWEntry addr value wordAll lv (LOCK_IDX addr)) addr hfresh rfl]
    have hmask : (newWEntry addr value wordAll lv (LOCK_IDX addr)).mask = wordAll := rfl
    rw [if_pos hmask]
    have hval : (newWEntry addr value wordAll lv (LOCK_IDX addr)).value = value := by
      unfold newWEntry
      dsimp only
      rw [if_neg (by decide : ¬ (wordAll : Word) = 0)]
    rw [hval]
  · intro mask hmask
    refine ⟨_, stm_write_fresh tx g addr value mask lv hro hl hv hfresh, ?_⟩
    unfold stm_read_invisible
    simp only [stm_has_written_append tx.w_set
      (newWEntry addr value mask lv (LOCK_IDX addr)) addr hfresh rfl]
    have hm : (newWEntry addr value mask lv (LOCK_IDX addr)).mask = mask := rfl
    rw [hm, if_neg hmask]
    unfold stm_read_mem
    simp only [hl]
    rw [if_neg (Nat.not_lt.mpr hv)]
    unfold finishRead
    have hvm : (newWEntry addr value mask lv (LOCK_IDX addr)).value &&& mask =
        value &&& mask := by
      unfold newWEntry
      dsimp only
      by_cases h0 : mask = 0
      · rw [h0, Nat.and_zero, Nat.and_zero]
      · rw [if_neg h0]
    simp only [hm, hvm]

/-- Witness for the read-your-own-writes claim at a concrete state:
after buffering a full-mask store of 42 to address 0, the load of
address 0 returns 42. -/
theorem read_your_own_writes_witness :
    stm_read_invisible { baseTx with w_set := [newWEntry 0 42 wordAll 0 (LOCK_IDX 0)] }
      c6g 0 =
    ReadRes.ok 42 { baseTx with w_set := [newWEntry 0 42 wordAll 0 (LOCK_IDX 0)] } := by
  obtain ⟨tx', hw, hr⟩ := (read_your_own_writes baseTx c6g 0 42 0 rfl rfl (by decide)
    (fun w hw => absurd hw (by simp [baseTx]))).1
  have heq : tx' = { baseTx with w_set := [newWEntry 0 42 wordAll 0 (LOCK_IDX 0)] } := by
    have h2 : stm_write baseTx c6g 0 42 wordAll =
        WriteRes.ok { baseTx with w_set := [newWEntry 0 42 wordAll 0 (LOCK_IDX 0)] } := rfl
    rw [h2] at hw
    exact ((WriteRes.ok.injEq _ _).mp hw).symm
  rw [heq] at hr
  exact hr

/-- The shape of a successful extension: only `end` moves, to the clock
value read. -/
theorem stm_extend_some (tx : stm_tx) (g : GlobalState) (tx2 : stm_tx)
    (h : stm_extend tx g = some tx2) : tx2 = { tx with end_ := g.clock } := by
  unfold stm_extend at h
  dsimp only at h
  split at h
  · exact Option.noConfusion h
  · split at h
    · exact (((Option.some.injEq _ _).mp h)).symm
    · exact Option.noConfusion h

/-- Appending a read at a version within the snapshot keeps every
read-set version within the snapshot. -/
theorem appendRead_bound (tx : stm_tx) (lock : Nat) (version : Word)
    (hb : ∀ r ∈ tx.r_set, r.version ≤ tx.end_) (hv : version ≤ tx.end_) :
    ∀ r ∈ (appendRead tx lock version).r_set,
      r.version ≤ (appendRead tx lock version).end_ := by
  intro r hr
  by_cases hro : tx.ro = true
  · simp only [appendRead, hro, if_true] at hr ⊢
    exact hb r hr
  · simp only [appendRead, hro, if_false] at hr ⊢
    rcases List.mem_append.mp hr with hold | hnew
    · exact hb r hold
    · rw [List.mem_singleton.mp hnew]
      exact hv

/-- The lock-value-lock read preserves the read-set bound: every entry
it appends carries a version no larger than the (possibly extended)
snapshot end. -/
theorem stm_read_mem_bound (tx : stm_tx) (g : GlobalState) (addr : Word)
    (written : Option w_entry)
    (hb : ∀ r ∈ tx.r_set, r.version ≤ tx.end_)
    (hend : tx.end_ ≤ g.clock)
    (hwf : ∀ i v, g.locks i = LockWord.free v → v ≤ g.clock) :
    ∀ val tx', stm_read_mem tx g addr written = ReadRes.ok val tx' →
      ∀ r ∈ tx'.r_set, r.version ≤ tx'.end_ := by
  intro val tx' h
  unfold stm_read_mem at h
  dsimp only at h
  cases hlock : g.locks (LOCK_IDX addr) with
  | unit =>
    rw [hlock] at h
    exact ReadRes.noConfusion h
  | owned t i =>
    rw [hlock] at h
    exact ReadRes.noConfusion h
  | free lv =>
    simp only [hlock] at h
    by_cases hgt : lv > tx.end_
    · rw [if_pos hgt] at h
      by_cases hroe : (tx.ro || !tx.can_extend) = true
      · rw [if_pos hroe] at h
        exact ReadRes.noConfusion h
      · rw [if_neg hroe] at h
        cases hext : stm_extend tx g with
        | none =>
          rw [hext] at h
          exact ReadRes.noConfusion h
        | some tx2 =>
          rw [hext] at h
          unfold finishRead at h
          have htx' := ((ReadRes.ok.injEq _ _ _ _).mp h).2
          rw [← htx']
          have h2 := stm_extend_some tx g tx2 hext
          apply appendRead_bound
          · rw [h2]
            intro r hr
            exact le_trans (hb r hr) hend
          · rw [h2]
            exact hwf (LOCK_IDX addr) lv hlock
    · rw [if_neg hgt] at h
      unfold finishRead at h
      have htx' := ((ReadRes.ok.injEq _ _ _ _).mp h).2
      rw [← htx']
      exact appendRead_bound tx _ _ hb (Nat.le_of_not_lt hgt)

/-- C7 counterexample: `stm_set_extension` with a caller-supplied
timestamp below an already-recorded version clamps `tx.end` under that
version, breaking the invariant that no read-set version exceeds
`tx.end`. -/
theorem set_extension_bound_cex :
    (∀ r ∈ c7tx.r_set, r.version ≤ c7tx.end_) ∧
    ¬ (∀ r ∈ (stm_set_extension c7tx true (some 3)).r_set,
        r.version ≤ (stm_set_extension c7tx true (some 3)).end_) := by
  constructor
  · decide
  · decide

/-- C7 amended: the read path and `stm_extend` preserve the invariant
that no read-set version exceeds `tx.end` (given the well-formedness
facts that unowned lock versions and `tx.end` never exceed the clock);
`stm_set_extension`'s clamping preserves it only when the supplied
timestamp is at least every recorded version. -/
theorem read_set_bound_amended (tx : stm_tx) (g : GlobalState) (addr : Word)
    (hb : ∀ r ∈ tx.r_set, r.version ≤ tx.end_)
    (hend : tx.end_ ≤ g.clock)
    (hwf : ∀ i v, g.locks i = LockWord.free v → v ≤ g.clock) :
    (∀ val tx', stm_read_invisible tx g addr = ReadRes.ok val tx' →
        ∀ r ∈ tx'.r_set, r.version ≤ tx'.end_) ∧
    (∀ tx', stm_extend tx g = some tx' →
        ∀ r ∈ tx'.r_set, r.version ≤ tx'.end_) ∧
    (∀ e ts, (∀ r ∈ tx.r_set, r.version ≤ ts) →
        ∀ r ∈ (stm_set_extension tx e (some ts)).r_set,
          r.version ≤ (stm_set_extension tx e (some ts)).end_) := by
  refine ⟨?_, ?_, ?_⟩
  · intro val tx' h
    unfold stm_read_invisible at h
    cases hw : stm_has_written tx.w_set addr with
    | some w =>
      simp only [hw] at h
      by_cases hm : w.mask = wordAll
      · rw [if_pos hm] at h
        have htx' := ((ReadRes.ok.injEq _ _ _ _).mp h).2
        rw [← htx']
        exact hb
      · rw [if_neg hm] at h
        exact stm_read_mem_bound tx g addr (some w) hb hend hwf val tx' h
    | none =>
      simp only [hw] at h
      exact stm_read_mem_bound tx g addr none hb hend hwf val tx' h
  · intro tx' h
    rw [stm_extend_some tx g tx' h]
    intro r hr
    exact le_trans (hb r hr) hend
  · intro e ts hts r hr
    unfold stm_set_extension at hr ⊢
    dsimp only at hr ⊢
    by_cases hlt : ts < tx.end_
    · rw [if_pos hlt] at hr ⊢
      exact hts r hr
    · rw [if_neg hlt] at hr ⊢
      exact hb r hr

/-- Witness for the amended read-set-bound claim at a concrete state:
the recorded entry stays within the (unclamped) snapshot end. -/
theorem read_set_bound_amended_witness :
    (⟨5, 0⟩ : r_entry).version ≤ (stm_set_extension c7tx true (some 9)).end_ :=
  (read_set_bound_amended c7tx c7g 0 (by decide) (by decide)
    (fun i v hv => by injection hv with h; rw [← h]; exact Nat.zero_le _)).2.2 true
    9 (by decide) ⟨5, 0⟩ (by decide)

end TinySTM
